import Mathlib

/-!
Shallow embedding of the party/game-state engine of `src/server.js`
(a socket.io quiz-bowl "buzzer" server).

Conventions of the embedding:
* JS `Map`s become association lists with `alGet` / `alSet` / `alDel`.
* JS numbers that feed arithmetic (buzz points) become `ℚ`; character
  indices and lengths become `Nat`, question indices become `Int`
  (the party starts at index `-1`).
* A client payload field that may be a non-number is `Option ℚ`
  (`none` models a value whose `typeof` is not `'number'`).
* `setTimeout` / `clearTimeout` are modelled by a bag of armed one-shot
  timers carried in the server state, keyed by a monotonically growing
  timer id; firing a timer is an explicit transition (`fireTimer`).
* Each socket handler is a pure function from the server state and the
  event payload to a `Res`: the new state, the callback reply, and the
  list of broadcasts emitted.
-/

/-- Error replies sent through the socket callback, one constructor per
distinct error string in `src/server.js`. -/
inductive ErrMsg where
  | InvalidName        -- "Invalid player name"
  | InvalidInput       -- "Invalid party code or player name"
  | PartyNotFound      -- "Party not found"
  | PartyFull          -- "Party is full (max 8 players)"
  | NameTaken          -- "Player name already taken in this party"
  | NotInParty         -- "Not in a party"
  | NotHost            -- "Only host can start game" / "Only host can advance"
  | InvalidQuestions   -- "Invalid questions"
  | GameNotActive      -- "Game not active"
  | AlreadyBuzzed      -- "Someone already buzzed"
  | BuzzLocked         -- "Buzzing is temporarily locked"
  | AlreadyAttempted   -- "You have already attempted this question"
  | NotYourBuzz        -- "You did not buzz in"
  | PlayerNotFound     -- "Player not found"
  deriving Repr, DecidableEq

/-- Callback replies. `noReply` is used by handlers that never call back
(the disconnect path and internal helpers). -/
inductive Reply where
  | ok
  | okCreate (partyCode : String) (playerId : String)
  | okJoin (playerId : String)
  | okNext (finished : Bool)
  | err (e : ErrMsg)
  | noReply
  deriving Repr, DecidableEq

/-- A roster member, as built in `create_party` / `join_party`. -/
structure Player where
  id : String
  name : String
  score : Int
  isHost : Bool
  socketId : String
  deriving Repr, DecidableEq

/-- A question object: opaque except for its `question` text field
(`none` models an object without that field). -/
structure Question where
  question : Option String
  deriving Repr, DecidableEq

inductive GStatus where
  | active
  | finished
  deriving Repr, DecidableEq

/-- The per-party `gameState` object created by `start_game`.
`attempted` is the JS `Set` in insertion order (duplicates never added). -/
structure GameState where
  status : GStatus
  buzzedPlayerId : Option String
  buzzPoint : ℚ
  attempted : List String
  lastIncorrectPlayerId : Option String
  startTime : Nat
  buzzLocked : Bool
  deriving Repr, DecidableEq

/-- What a scheduled callback does when it fires: the 5000 ms advance of
a correct answer (and of the inner chained timer), or the 1800 ms
time-up broadcast that then arms the inner advance timer. -/
inductive TimerTask where
  | advance (partyCode : String)
  | timeUpChain (partyCode : String)
  deriving Repr, DecidableEq

structure TimerEntry where
  task : TimerTask
  delayMs : Nat
  deriving Repr, DecidableEq

/-- The party record stored in the `parties` map. The JS `host` field is
an alias into `players`; the embedding stores the host's id and keeps the
`isHost` flags inside `players`. -/
structure Party where
  code : String
  hostId : String
  players : List Player
  settingsSet : Bool
  gameState : Option GameState
  questions : List Question
  currentQuestionIndex : Int
  pendingAdvanceTimeout : Option Nat
  deriving Repr, DecidableEq

/-- Broadcast events (`io.to(party).emit(...)`), with the payload fields
the claims talk about. -/
inductive Event where
  | party_updated (code : String) (players : List Player)
  | game_started (code : String)
  | player_buzzed (playerId : String) (playerName : String) (rawBuzzPoint : Option ℚ)
  | answer_submitted (playerId : String) (points : Int) (newScore : Int)
  | buzz_unlocked (playerName : String) (excludedPlayerId : String) (attempted : List String)
  | time_up
  | next_question (questionIndex : Int)
  | game_finished (players : List Player)
  | player_disconnected (playerId : String)
  deriving Repr, DecidableEq

/-- The whole mutable server state: the two registries, plus the bag of
armed `setTimeout` callbacks and the id counter that names them. -/
structure ServerState where
  parties : List (String × Party)
  playerToParty : List (String × String)
  armedTimers : List (Nat × TimerEntry)
  nextTimerId : Nat
  deriving Repr, DecidableEq

/-- Result of one socket handler: new state, callback reply, broadcasts. -/
structure Res where
  st : ServerState
  reply : Reply
  events : List Event
  deriving Repr, DecidableEq

def initState : ServerState := ⟨[], [], [], 0⟩

/-! ### Association-list maps -/

def alGet {κ α : Type} [DecidableEq κ] (m : List (κ × α)) (k : κ) : Option α :=
  (m.find? (fun kv => decide (kv.1 = k))).map Prod.snd

def alDel {κ α : Type} [DecidableEq κ] (m : List (κ × α)) (k : κ) : List (κ × α) :=
  m.filter (fun kv => decide (kv.1 ≠ k))

def alSet {κ α : Type} [DecidableEq κ] (m : List (κ × α)) (k : κ) (v : α) : List (κ × α) :=
  (k, v) :: alDel m k

theorem alGet_del_ne {κ α : Type} [DecidableEq κ] (m : List (κ × α)) (k c : κ)
    (h : c ≠ k) : alGet (alDel m k) c = alGet m c := by
  induction m with
  | nil => rfl
  | cons kv rest ih =>
    simp only [alDel, alGet, List.filter_cons, List.find?_cons] at *
    by_cases hk : kv.1 = k
    · have h1 : (decide (kv.1 ≠ k)) = false := by simp [hk]
      have h2 : (decide (kv.1 = c)) = false := by
        simp only [decide_eq_false_iff_not]
        rw [hk]; exact fun hc => h hc.symm
      rw [h1, h2]
      simpa using ih
    · have h1 : (decide (kv.1 ≠ k)) = true := by simp [hk]
      rw [h1]
      simp only [if_true, cond_true, List.find?_cons]
      cases h2 : (decide (kv.1 = c)) with
      | true => rfl
      | false => exact ih

theorem alGet_del_self {κ α : Type} [DecidableEq κ] (m : List (κ × α)) (k : κ) :
    alGet (alDel m k) k = none := by
  induction m with
  | nil => rfl
  | cons kv rest ih =>
    simp only [alDel, alGet, List.filter_cons, List.find?_cons] at *
    by_cases hk : kv.1 = k
    · have h1 : (decide (kv.1 ≠ k)) = false := by simp [hk]
      rw [h1]
      simpa using ih
    · have h1 : (decide (kv.1 ≠ k)) = true := by simp [hk]
      have h2 : (decide (kv.1 = k)) = false := by simp [hk]
      rw [h1]
      simp only [if_true, cond_true, List.find?_cons, h2]
      exact ih

theorem alGet_set_eq {κ α : Type} [DecidableEq κ] (m : List (κ × α)) (k : κ) (v : α) :
    alGet (alSet m k v) k = some v := by
  simp [alSet, alGet, List.find?_cons]

theorem alGet_set_ne {κ α : Type} [DecidableEq κ] (m : List (κ × α)) (k c : κ) (v : α)
    (h : c ≠ k) : alGet (alSet m k v) c = alGet m c := by
  simp only [alSet, alGet, List.find?_cons]
  rw [show (decide (k = c)) = false by
    simp only [decide_eq_false_iff_not]; exact fun hc => h hc.symm]
  exact alGet_del_ne m k c h

/-! ### Small helpers shared by the handlers -/

/-- Model of JS `String.prototype.trim`: strip whitespace from both ends.
(Defined structurally on the character list so that the kernel can
evaluate it on concrete inputs.) -/
def jsTrim (s : String) : String :=
  String.mk (((s.data.dropWhile Char.isWhitespace).reverse.dropWhile Char.isWhitespace).reverse)

/-- Model of JS `String.prototype.toLowerCase`. -/
def jsToLower (s : String) : String :=
  String.mk (s.data.map Char.toLower)

/-- JS number division on the rational model, written through `Rat.divInt`
so that it evaluates by kernel reduction; `ratDiv_eq_div` below shows it
is ordinary field division on `ℚ`. -/
def ratDiv (a b : ℚ) : ℚ :=
  Rat.divInt (a.num * b.den) (a.den * b.num)

theorem ratDiv_eq_div (a b : ℚ) : ratDiv a b = a / b := by
  unfold ratDiv
  rcases eq_or_ne b 0 with hb | hb
  · subst hb; simp
  · rw [Rat.divInt_eq_div]
    push_cast
    have hden_a : ((a.den : ℚ)) ≠ 0 := by
      exact_mod_cast Nat.pos_iff_ne_zero.mp a.pos
    have hden_b : ((b.den : ℚ)) ≠ 0 := by
      exact_mod_cast Nat.pos_iff_ne_zero.mp b.pos
    have ha : ((a.num : ℚ)) = a * a.den := (div_eq_iff hden_a).mp (Rat.num_div_den a)
    have hbn : ((b.num : ℚ)) = b * b.den := (div_eq_iff hden_b).mp (Rat.num_div_den b)
    field_simp
    rw [ha, hbn]
    ring

/-- JS truthiness of the `buzzedPlayerId` field (`null` and `""` are falsy). -/
def jsTruthyStr (o : Option String) : Bool :=
  match o with
  | none => false
  | some s => decide (s ≠ "")

/-- `party.players.find(p => p.id === playerId)`. -/
def findPlayer (players : List Player) (pid : String) : Option Player :=
  players.find? (fun p => decide (p.id = pid))

/-- In-place mutation of the player object returned by `find`: only the
first occurrence of the id is updated. -/
def updateFirst (players : List Player) (pid : String) (f : Player → Player) : List Player :=
  match players with
  | [] => []
  | p :: rest => if p.id = pid then f p :: rest else p :: updateFirst rest pid f

/-- `Set.add`: appends only when absent, preserving insertion order. -/
def setAdd (l : List String) (x : String) : List String :=
  if x ∈ l then l else l ++ [x]

/-- `party.players.filter(p => p.id !== socket.id)`. -/
def removePlayer (players : List Player) (sid : String) : List Player :=
  players.filter (fun p => decide (p.id ≠ sid))

/-- `party.host = party.players[0]; party.host.isHost = true` — the flag
is set on the object at index 0 only. -/
def assignHost (players : List Player) : List Player :=
  match players with
  | [] => []
  | q :: rest => { q with isHost := true } :: rest

def headPlayerId (players : List Player) : String :=
  match players with
  | [] => ""
  | q :: _ => q.id

def setTimeout (s : ServerState) (task : TimerTask) (delayMs : Nat) : Nat × ServerState :=
  (s.nextTimerId,
   { s with armedTimers := s.armedTimers ++ [(s.nextTimerId, ⟨task, delayMs⟩)],
            nextTimerId := s.nextTimerId + 1 })

def clearTimeout (s : ServerState) (tid : Nat) : ServerState :=
  { s with armedTimers := alDel s.armedTimers tid }

def updParty (s : ServerState) (code : String) (party : Party) : ServerState :=
  { s with parties := alSet s.parties code party }

/-! ### Socket handlers -/

/-- `create_party`. The generated code is nondeterministic in the source
(`generatePartyCode` retries until unseen); it is passed in here and the
step relation carries the freshness side condition. -/
def createParty (s : ServerState) (sid playerName freshCode : String) : Res :=
  if jsTrim playerName = "" then ⟨s, .err .InvalidName, []⟩
  else
    let host : Player := ⟨sid, jsTrim playerName, 0, true, sid⟩
    let party : Party :=
      { code := freshCode, hostId := sid, players := [host], settingsSet := false,
        gameState := none, questions := [], currentQuestionIndex := -1,
        pendingAdvanceTimeout := none }
    ⟨{ s with parties := alSet s.parties freshCode party,
              playerToParty := alSet s.playerToParty sid freshCode },
     .okCreate freshCode sid,
     [.party_updated freshCode [host]]⟩

/-- `join_party`. -/
def joinParty (s : ServerState) (sid partyCode playerName : String) : Res :=
  if partyCode = "" ∨ jsTrim playerName = "" then ⟨s, .err .InvalidInput, []⟩
  else
    match alGet s.parties partyCode with
    | none => ⟨s, .err .PartyNotFound, []⟩
    | some party =>
      if 8 ≤ party.players.length then ⟨s, .err .PartyFull, []⟩
      else if party.players.any (fun p => decide (jsToLower p.name = jsToLower (jsTrim playerName))) then
        ⟨s, .err .NameTaken, []⟩
      else
        let player : Player := ⟨sid, jsTrim playerName, 0, false, sid⟩
        let party' := { party with players := party.players ++ [player] }
        ⟨{ s with parties := alSet s.parties partyCode party',
                  playerToParty := alSet s.playerToParty sid partyCode },
         .okJoin sid,
         [.party_updated partyCode party'.players]⟩

/-- `leave_party`. -/
def leaveParty (s : ServerState) (sid : String) : Res :=
  match alGet s.playerToParty sid with
  | none => ⟨s, .err .NotInParty, []⟩
  | some partyCode =>
    match alGet s.parties partyCode with
    | none => ⟨s, .err .PartyNotFound, []⟩
    | some party =>
      let remaining := removePlayer party.players sid
      let s1 := { s with playerToParty := alDel s.playerToParty sid }
      if remaining.length = 0 then
        ⟨{ s1 with parties := alDel s1.parties partyCode }, .ok, []⟩
      else
        let party' :=
          if party.hostId = sid then
            { party with players := assignHost remaining, hostId := headPlayerId remaining }
          else
            { party with players := remaining }
        ⟨updParty s1 partyCode party', .ok, [.party_updated partyCode party'.players]⟩

/-- The `disconnect` handler: same roster transition as `leave_party`
but no callback reply, and a `player_disconnected` broadcast instead. -/
def onDisconnect (s : ServerState) (sid : String) : Res :=
  match alGet s.playerToParty sid with
  | none => ⟨s, .noReply, []⟩
  | some partyCode =>
    match alGet s.parties partyCode with
    | none => ⟨s, .noReply, []⟩
    | some party =>
      let remaining := removePlayer party.players sid
      let s1 := { s with playerToParty := alDel s.playerToParty sid }
      if remaining.length = 0 then
        ⟨{ s1 with parties := alDel s1.parties partyCode }, .noReply, []⟩
      else
        let party' :=
          if party.hostId = sid then
            { party with players := assignHost remaining, hostId := headPlayerId remaining }
          else
            { party with players := remaining }
        ⟨updParty s1 partyCode party', .noReply, [.player_disconnected sid]⟩

def resetScores (players : List Player) : List Player :=
  players.map (fun p => { p with score := 0 })

/-- `start_game`. Note that the source sets `party.pendingAdvanceTimeout = null`
without calling `clearTimeout`, so an armed timer stays armed. -/
def startGame (s : ServerState) (sid : String) (questions : List Question) (now : Nat) : Res :=
  match alGet s.playerToParty sid with
  | none => ⟨s, .err .NotInParty, []⟩
  | some partyCode =>
    match alGet s.parties partyCode with
    | none => ⟨s, .err .PartyNotFound, []⟩
    | some party =>
      if party.hostId ≠ sid then ⟨s, .err .NotHost, []⟩
      else if questions.length = 0 then ⟨s, .err .InvalidQuestions, []⟩
      else
        let party' :=
          { party with
              settingsSet := true,
              questions := questions,
              currentQuestionIndex := 0,
              gameState := some
                { status := .active, buzzedPlayerId := none, buzzPoint := 0,
                  attempted := [], lastIncorrectPlayerId := none,
                  startTime := now, buzzLocked := false },
              pendingAdvanceTimeout := none,
              players := resetScores party.players }
        ⟨updParty s partyCode party', .ok, [.game_started partyCode]⟩

/-- `buzz`. -/
def buzz (s : ServerState) (sid : String) (rawBuzzPoint : Option ℚ) : Res :=
  match alGet s.playerToParty sid with
  | none => ⟨s, .err .NotInParty, []⟩
  | some partyCode =>
    match alGet s.parties partyCode with
    | none => ⟨s, .err .GameNotActive, []⟩
    | some party =>
      match party.gameState with
      | none => ⟨s, .err .GameNotActive, []⟩
      | some gs =>
        if jsTruthyStr gs.buzzedPlayerId then ⟨s, .err .AlreadyBuzzed, []⟩
        else if gs.buzzLocked then ⟨s, .err .BuzzLocked, []⟩
        else if sid ∈ gs.attempted then ⟨s, .err .AlreadyAttempted, []⟩
        else
          let stored : ℚ := match rawBuzzPoint with | some v => v | none => 0
          let gs' := { gs with buzzedPlayerId := some sid, buzzPoint := stored,
                               lastIncorrectPlayerId := none }
          let party' := { party with gameState := some gs' }
          let pname := match findPlayer party.players sid with
            | some p => p.name
            | none => "Unknown"
          ⟨updParty s partyCode party', .ok,
           [.player_buzzed sid pname rawBuzzPoint]⟩

/-- JS array indexing with an `Int` index (negative or out of range gives
`undefined`). -/
def jsIndex {α : Type} (l : List α) (i : Int) : Option α :=
  if 0 ≤ i then l.get? i.toNat else none

/-- `curQ && curQ.question ? curQ.question.length : 1` (an empty string is
falsy, so it also falls back to 1). -/
def jsQuestionLen (party : Party) : Nat :=
  match jsIndex party.questions party.currentQuestionIndex with
  | some q =>
    match q.question with
    | some text => if text = "" then 1 else text.length
    | none => 1
  | none => 1

/-- `party.gameState.buzzPoint || 0` — identity on every rational except 0. -/
def jsOrZero (q : ℚ) : ℚ := if q = 0 then 0 else q

/-- The JS literal `0.5`, written through `mkRat` so that it evaluates by
kernel reduction; `jsHalf_eq` shows it is the rational one half. -/
def jsHalf : ℚ := mkRat 1 2

theorem jsHalf_eq : jsHalf = 1/2 := by
  unfold jsHalf
  norm_num [mkRat, Rat.normalize]

/-- The inline point computation of the `submit_answer` handler. -/
def computedPointsFor (isCorrect : Bool) (party : Party) (gs : GameState) : Int :=
  if isCorrect then
    if ratDiv (jsOrZero gs.buzzPoint) (max 1 (jsQuestionLen party) : ℚ) < jsHalf then 15 else 10
  else -5

/-- `submit_answer`. -/
def submitAnswer (s : ServerState) (sid : String) (isCorrect : Bool) : Res :=
  match alGet s.playerToParty sid with
  | none => ⟨s, .err .NotInParty, []⟩
  | some partyCode =>
    match alGet s.parties partyCode with
    | none => ⟨s, .err .GameNotActive, []⟩
    | some party =>
      match party.gameState with
      | none => ⟨s, .err .GameNotActive, []⟩
      | some gs =>
        if gs.buzzedPlayerId ≠ some sid then ⟨s, .err .NotYourBuzz, []⟩
        else
          match findPlayer party.players sid with
          | none => ⟨s, .err .PlayerNotFound, []⟩
          | some player =>
            let pts := computedPointsFor isCorrect party gs
            let players' := updateFirst party.players sid
              (fun p => { p with score := p.score + pts })
            let ev0 : Event := .answer_submitted sid pts (player.score + pts)
            if isCorrect then
              let gs' := { gs with buzzLocked := true }
              let armTimer := setTimeout s (.advance partyCode) 5000
              let party' := { party with
                players := players', gameState := some gs',
                pendingAdvanceTimeout := some armTimer.1 }
              ⟨updParty armTimer.2 partyCode party', .ok, [ev0]⟩
            else
              let attempted' := setAdd gs.attempted sid
              let gs' := { gs with buzzedPlayerId := none, buzzPoint := 0,
                                   attempted := attempted' }
              let ev1 : Event := .buzz_unlocked player.name sid attempted'
              if party.players.length ≤ attempted'.length then
                let armTimer := setTimeout s (.timeUpChain partyCode) 1800
                let party' := { party with
                  players := players', gameState := some gs',
                  pendingAdvanceTimeout := some armTimer.1 }
                ⟨updParty armTimer.2 partyCode party', .ok, [ev0, ev1]⟩
              else
                let party' := { party with players := players', gameState := some gs' }
                ⟨updParty s partyCode party', .ok, [ev0, ev1]⟩

/-- Stable insertion step for `players.sort((a, b) => b.score - a.score)`:
descending by score, original order preserved on ties. -/
def sortInsert (p : Player) : List Player → List Player
  | [] => [p]
  | q :: rest => if p.score < q.score then q :: sortInsert p rest else p :: q :: rest

def sortByScoreDesc : List Player → List Player
  | [] => []
  | p :: rest => sortInsert p (sortByScoreDesc rest)

/-- The shared `advanceToNextQuestion(partyCode)` helper. -/
def advanceToNextQuestion (s : ServerState) (partyCode : String) : ServerState × List Event :=
  match alGet s.parties partyCode with
  | none => (s, [])
  | some party =>
    let s1 := match party.pendingAdvanceTimeout with
      | some tid => clearTimeout s tid
      | none => s
    let newIndex := party.currentQuestionIndex + 1
    let finished := decide ((party.questions.length : Int) ≤ newIndex)
    let resetGs : GameState → GameState := fun gs =>
      { gs with buzzedPlayerId := none, buzzPoint := 0, attempted := [],
                lastIncorrectPlayerId := none, buzzLocked := false,
                status := if finished then .finished else gs.status }
    if finished then
      let party' := { party with
        pendingAdvanceTimeout := none,
        currentQuestionIndex := newIndex,
        gameState := party.gameState.map resetGs,
        players := sortByScoreDesc party.players }
      (updParty s1 partyCode party', [.game_finished party'.players])
    else
      let party' := { party with
        pendingAdvanceTimeout := none,
        currentQuestionIndex := newIndex,
        gameState := party.gameState.map resetGs }
      (updParty s1 partyCode party', [.next_question newIndex])

/-- The `next_question` handler (host-forced advance). The `finished`
flag of the acknowledgement is read from the party object after the
advance has mutated it. -/
def nextQuestion (s : ServerState) (sid : String) : Res :=
  match alGet s.playerToParty sid with
  | none => ⟨s, .err .NotInParty, []⟩
  | some partyCode =>
    match alGet s.parties partyCode with
    | none => ⟨s, .err .GameNotActive, []⟩
    | some party =>
      match party.gameState with
      | none => ⟨s, .err .GameNotActive, []⟩
      | some _ =>
        if party.hostId ≠ sid then ⟨s, .err .NotHost, []⟩
        else
          let adv := advanceToNextQuestion s partyCode
          let finished :=
            match alGet adv.1.parties partyCode with
            | some party' => decide ((party'.questions.length : Int) ≤ party'.currentQuestionIndex)
            | none => false
          ⟨adv.1, .okNext finished, adv.2⟩

/-- Firing an armed one-shot timer: the timer leaves the armed bag and
its callback runs. The time-up callback broadcasts `time_up` and only
then arms the inner 5000 ms advance timer. -/
def fireTimer (s : ServerState) (tid : Nat) : ServerState × List Event :=
  match alGet s.armedTimers tid with
  | none => (s, [])
  | some entry =>
    let s1 := { s with armedTimers := alDel s.armedTimers tid }
    match entry.task with
    | .advance partyCode => advanceToNextQuestion s1 partyCode
    | .timeUpChain partyCode =>
      let armTimer := setTimeout s1 (.advance partyCode) 5000
      match alGet armTimer.2.parties partyCode with
      | some party =>
        let party' := { party with pendingAdvanceTimeout := some armTimer.1 }
        ({ armTimer.2 with parties := alSet armTimer.2.parties partyCode party' },
         [.time_up])
      | none => (armTimer.2, [.time_up])

/-! ### The transition system -/

/-- One server event: any socket handler invocation with any payload, or
an armed timer firing. Party-code generation carries the freshness side
condition of `generatePartyCode`. -/
inductive Step : ServerState → ServerState → Prop where
  | create (s : ServerState) (sid playerName freshCode : String)
      (hfresh : alGet s.parties freshCode = none) :
      Step s (createParty s sid playerName freshCode).st
  | join (s : ServerState) (sid partyCode playerName : String) :
      Step s (joinParty s sid partyCode playerName).st
  | leave (s : ServerState) (sid : String) :
      Step s (leaveParty s sid).st
  | disconnect (s : ServerState) (sid : String) :
      Step s (onDisconnect s sid).st
  | start (s : ServerState) (sid : String) (questions : List Question) (now : Nat) :
      Step s (startGame s sid questions now).st
  | buzzStep (s : ServerState) (sid : String) (rawBuzzPoint : Option ℚ) :
      Step s (buzz s sid rawBuzzPoint).st
  | submit (s : ServerState) (sid : String) (isCorrect : Bool) :
      Step s (submitAnswer s sid isCorrect).st
  | next (s : ServerState) (sid : String) :
      Step s (nextQuestion s sid).st
  | fire (s : ServerState) (tid : Nat) :
      Step s (fireTimer s tid).1

/-- States reachable from the empty registry. -/
def Reachable (s : ServerState) : Prop :=
  Relation.ReflTransGen Step initState s

/-! ### List and lookup helper lemmas -/

theorem findPlayer_updateFirst (ps : List Player) (pid : String) (f : Player → Player)
    (hf : ∀ q, (f q).id = q.id) :
    findPlayer (updateFirst ps pid f) pid = (findPlayer ps pid).map f := by
  induction ps with
  | nil => rfl
  | cons p rest ih =>
    by_cases hp : p.id = pid
    · simp [updateFirst, findPlayer, hp, List.find?_cons, hf]
    · simp only [updateFirst, findPlayer, List.find?_cons] at *
      rw [if_neg hp]
      simp only [List.find?_cons]
      rw [show (decide (p.id = pid)) = false by simp [hp]]
      exact ih

theorem updateFirst_length (ps : List Player) (pid : String) (f : Player → Player) :
    (updateFirst ps pid f).length = ps.length := by
  induction ps with
  | nil => rfl
  | cons p rest ih =>
    simp only [updateFirst]
    by_cases hp : p.id = pid
    · rw [if_pos hp]; simp
    · rw [if_neg hp]; simp [ih]

theorem alGet_append_of_none {κ α : Type} [DecidableEq κ]
    (l1 l2 : List (κ × α)) (k : κ) (h : alGet l1 k = none) :
    alGet (l1 ++ l2) k = alGet l2 k := by
  induction l1 with
  | nil => rfl
  | cons kv rest ih =>
    simp only [alGet, List.find?_cons, List.cons_append] at *
    cases hk : (decide (kv.1 = k)) with
    | true => rw [hk] at h; simp at h
    | false =>
      rw [hk] at h
      exact ih h

/-! ### Success-path characterizations of the handlers -/

theorem buzz_success (s : ServerState) (sid : String) (bp : Option ℚ)
    (code : String) (party : Party) (gs : GameState)
    (h1 : alGet s.playerToParty sid = some code)
    (h2 : alGet s.parties code = some party)
    (h3 : party.gameState = some gs)
    (h4 : jsTruthyStr gs.buzzedPlayerId = false)
    (h5 : gs.buzzLocked = false)
    (h6 : sid ∉ gs.attempted) :
    buzz s sid bp =
      ⟨updParty s code { party with gameState := some { gs with
          buzzedPlayerId := some sid,
          buzzPoint := bp.getD 0,
          lastIncorrectPlayerId := none } },
       .ok,
       [.player_buzzed sid
          (match findPlayer party.players sid with
           | some p => p.name
           | none => "Unknown") bp]⟩ := by
  cases bp <;> simp [buzz, h1, h2, h3, h4, h5, h6, Option.getD]

theorem submitAnswer_correct (s : ServerState) (sid : String)
    (code : String) (party : Party) (gs : GameState) (player : Player)
    (h1 : alGet s.playerToParty sid = some code)
    (h2 : alGet s.parties code = some party)
    (h3 : party.gameState = some gs)
    (h4 : gs.buzzedPlayerId = some sid)
    (h5 : findPlayer party.players sid = some player) :
    submitAnswer s sid true =
      ⟨updParty { s with
          armedTimers := s.armedTimers ++ [(s.nextTimerId, ⟨.advance code, 5000⟩)],
          nextTimerId := s.nextTimerId + 1 } code
        { party with
          players := updateFirst party.players sid
            (fun p => { p with score := p.score + computedPointsFor true party gs }),
          gameState := some { gs with buzzLocked := true },
          pendingAdvanceTimeout := some s.nextTimerId },
       .ok,
       [.answer_submitted sid (computedPointsFor true party gs)
          (player.score + computedPointsFor true party gs)]⟩ := by
  simp [submitAnswer, h1, h2, h3, h4, h5, setTimeout]

theorem submitAnswer_incorrect_all (s : ServerState) (sid : String)
    (code : String) (party : Party) (gs : GameState) (player : Player)
    (h1 : alGet s.playerToParty sid = some code)
    (h2 : alGet s.parties code = some party)
    (h3 : party.gameState = some gs)
    (h4 : gs.buzzedPlayerId = some sid)
    (h5 : findPlayer party.players sid = some player)
    (hall : party.players.length ≤ (setAdd gs.attempted sid).length) :
    submitAnswer s sid false =
      ⟨updParty { s with
          armedTimers := s.armedTimers ++ [(s.nextTimerId, ⟨.timeUpChain code, 1800⟩)],
          nextTimerId := s.nextTimerId + 1 } code
        { party with
          players := updateFirst party.players sid
            (fun p => { p with score := p.score + (-5) }),
          gameState := some { gs with
            buzzedPlayerId := none, buzzPoint := 0,
            attempted := setAdd gs.attempted sid },
          pendingAdvanceTimeout := some s.nextTimerId },
       .ok,
       [.answer_submitted sid (-5) (player.score + (-5)),
        .buzz_unlocked player.name sid (setAdd gs.attempted sid)]⟩ := by
  simp [submitAnswer, h1, h2, h3, h4, h5, hall, setTimeout, computedPointsFor]

theorem submitAnswer_incorrect_notall (s : ServerState) (sid : String)
    (code : String) (party : Party) (gs : GameState) (player : Player)
    (h1 : alGet s.playerToParty sid = some code)
    (h2 : alGet s.parties code = some party)
    (h3 : party.gameState = some gs)
    (h4 : gs.buzzedPlayerId = some sid)
    (h5 : findPlayer party.players sid = some player)
    (hnot : ¬ party.players.length ≤ (setAdd gs.attempted sid).length) :
    submitAnswer s sid false =
      ⟨updParty s code
        { party with
          players := updateFirst party.players sid
            (fun p => { p with score := p.score + (-5) }),
          gameState := some { gs with
            buzzedPlayerId := none, buzzPoint := 0,
            attempted := setAdd gs.attempted sid } },
       .ok,
       [.answer_submitted sid (-5) (player.score + (-5)),
        .buzz_unlocked player.name sid (setAdd gs.attempted sid)]⟩ := by
  simp [submitAnswer, h1, h2, h3, h4, h5, hnot, computedPointsFor]

/-- The party record after `advanceToNextQuestion` has run on `party`. -/
def advParty (party : Party) : Party :=
  let newIndex := party.currentQuestionIndex + 1
  let finished := decide ((party.questions.length : Int) ≤ newIndex)
  { party with
    pendingAdvanceTimeout := none,
    currentQuestionIndex := newIndex,
    gameState := party.gameState.map (fun gs =>
      { gs with
        buzzedPlayerId := none, buzzPoint := 0, attempted := [],
        lastIncorrectPlayerId := none, buzzLocked := false,
        status := if finished then .finished else gs.status }),
    players := if finished then sortByScoreDesc party.players else party.players }

theorem advance_lookup (s : ServerState) (code : String) (party : Party)
    (h : alGet s.parties code = some party) :
    alGet (advanceToNextQuestion s code).1.parties code = some (advParty party) := by
  by_cases hfin : ((party.questions.length : Int) ≤ party.currentQuestionIndex + 1) <;>
    cases hpt : party.pendingAdvanceTimeout <;>
      simp [advanceToNextQuestion, h, hpt, hfin, updParty, clearTimeout, advParty, alGet_set_eq]

theorem advance_playerToParty (s : ServerState) (code : String) :
    (advanceToNextQuestion s code).1.playerToParty = s.playerToParty := by
  unfold advanceToNextQuestion
  cases h : alGet s.parties code with
  | none => rfl
  | some party =>
    cases hpt : party.pendingAdvanceTimeout <;>
      by_cases hfin : ((party.questions.length : Int) ≤ party.currentQuestionIndex + 1) <;>
        simp [hpt, hfin, updParty, clearTimeout]

/-! ### The buzzer-not-attempted invariant -/

/-- Per-party invariant: whoever currently holds the buzz is not in the
attempted set. -/
def PInv (party : Party) : Prop :=
  ∀ gs, party.gameState = some gs → ∀ p, gs.buzzedPlayerId = some p → p ∉ gs.attempted

/-- The invariant over the whole party registry. -/
def BuzzInvP (m : List (String × Party)) : Prop :=
  ∀ c party, alGet m c = some party → PInv party

theorem buzzInvP_set {m : List (String × Party)} {k : String} {v : Party}
    (h : BuzzInvP m) (hv : PInv v) : BuzzInvP (alSet m k v) := by
  intro c party hp
  by_cases hc : c = k
  · subst hc
    rw [alGet_set_eq] at hp
    injection hp with hh
    subst hh
    exact hv
  · rw [alGet_set_ne _ _ _ _ hc] at hp
    exact h c party hp

theorem buzzInvP_del {m : List (String × Party)} {k : String}
    (h : BuzzInvP m) : BuzzInvP (alDel m k) := by
  intro c party hp
  by_cases hc : c = k
  · subst hc
    rw [alGet_del_self] at hp
    cases hp
  · rw [alGet_del_ne _ _ _ hc] at hp
    exact h c party hp

theorem buzzInvP_create (s : ServerState) (sid name code : String)
    (h : BuzzInvP s.parties) : BuzzInvP (createParty s sid name code).st.parties := by
  unfold createParty
  by_cases ht : jsTrim name = ""
  · simp only [if_pos ht]; exact h
  · simp only [if_neg ht]
    exact buzzInvP_set h (fun gs hgs => by cases hgs)

theorem buzzInvP_join (s : ServerState) (sid code name : String)
    (h : BuzzInvP s.parties) : BuzzInvP (joinParty s sid code name).st.parties := by
  unfold joinParty
  by_cases hv : code = "" ∨ jsTrim name = ""
  · simp only [if_pos hv]; exact h
  · simp only [if_neg hv]
    cases hg : alGet s.parties code with
    | none => exact h
    | some party =>
      by_cases h8 : 8 ≤ party.players.length
      · simp only [if_pos h8]; exact h
      · simp only [if_neg h8]
        cases hn : party.players.any
            (fun p => decide (jsToLower p.name = jsToLower (jsTrim name))) with
        | true => exact h
        | false => exact buzzInvP_set h (h code party hg)

theorem buzzInvP_leave (s : ServerState) (sid : String)
    (h : BuzzInvP s.parties) : BuzzInvP (leaveParty s sid).st.parties := by
  unfold leaveParty
  cases hc : alGet s.playerToParty sid with
  | none => exact h
  | some code =>
    dsimp only
    cases hg : alGet s.parties code with
    | none => exact h
    | some party =>
      dsimp only
      by_cases hlen : (removePlayer party.players sid).length = 0
      · simp only [if_pos hlen]; exact buzzInvP_del h
      · simp only [if_neg hlen]
        by_cases hh : party.hostId = sid
        · simp only [if_pos hh]; exact buzzInvP_set h (h code party hg)
        · simp only [if_neg hh]; exact buzzInvP_set h (h code party hg)

theorem buzzInvP_disconnect (s : ServerState) (sid : String)
    (h : BuzzInvP s.parties) : BuzzInvP (onDisconnect s sid).st.parties := by
  unfold onDisconnect
  cases hc : alGet s.playerToParty sid with
  | none => exact h
  | some code =>
    dsimp only
    cases hg : alGet s.parties code with
    | none => exact h
    | some party =>
      dsimp only
      by_cases hlen : (removePlayer party.players sid).length = 0
      · simp only [if_pos hlen]; exact buzzInvP_del h
      · simp only [if_neg hlen]
        by_cases hh : party.hostId = sid
        · simp only [if_pos hh]; exact buzzInvP_set h (h code party hg)
        · simp only [if_neg hh]; exact buzzInvP_set h (h code party hg)

theorem buzzInvP_start (s : ServerState) (sid : String) (questions : List Question)
    (now : Nat) (h : BuzzInvP s.parties) :
    BuzzInvP (startGame s sid questions now).st.parties := by
  unfold startGame
  cases hc : alGet s.playerToParty sid with
  | none => exact h
  | some code =>
    dsimp only
    cases hg : alGet s.parties code with
    | none => exact h
    | some party =>
      dsimp only
      by_cases hh : party.hostId ≠ sid
      · simp only [if_pos hh]; exact h
      · simp only [if_neg hh]
        by_cases hq : questions.length = 0
        · simp only [if_pos hq]; exact h
        · simp only [if_neg hq]
          refine buzzInvP_set h (fun gs hgs p hp => ?_)
          injection hgs with hh2
          subst hh2
          cases hp

theorem buzzInvP_buzz (s : ServerState) (sid : String) (bp : Option ℚ)
    (h : BuzzInvP s.parties) : BuzzInvP (buzz s sid bp).st.parties := by
  unfold buzz
  cases hc : alGet s.playerToParty sid with
  | none => exact h
  | some code =>
    dsimp only
    cases hg : alGet s.parties code with
    | none => exact h
    | some party =>
      dsimp only
      cases hgs : party.gameState with
      | none => exact h
      | some gs =>
        dsimp only
        cases htr : jsTruthyStr gs.buzzedPlayerId with
        | true => exact h
        | false =>
          cases hlk : gs.buzzLocked with
          | true => exact h
          | false =>
            by_cases hat : sid ∈ gs.attempted
            · simp only [if_pos hat]; exact h
            · simp only [if_neg hat]
              refine buzzInvP_set h (fun gs0 hgs0 p hp => ?_)
              injection hgs0 with hh2
              subst hh2
              injection hp with hp2
              subst hp2
              exact hat

theorem buzzInvP_submit (s : ServerState) (sid : String) (isCorrect : Bool)
    (h : BuzzInvP s.parties) : BuzzInvP (submitAnswer s sid isCorrect).st.parties := by
  unfold submitAnswer
  cases hc : alGet s.playerToParty sid with
  | none => exact h
  | some code =>
    dsimp only
    cases hg : alGet s.parties code with
    | none => exact h
    | some party =>
      dsimp only
      cases hgs : party.gameState with
      | none => exact h
      | some gs =>
        dsimp only
        by_cases hb : gs.buzzedPlayerId ≠ some sid
        · simp only [if_pos hb]; exact h
        · simp only [if_neg hb]
          cases hf : findPlayer party.players sid with
          | none => exact h
          | some player =>
            cases isCorrect with
            | true =>
              refine buzzInvP_set h (fun gs0 hgs0 p hp => ?_)
              injection hgs0 with hh2
              subst hh2
              exact h code party hg gs hgs p hp
            | false =>
              by_cases hall :
                  party.players.length ≤ (setAdd gs.attempted sid).length
              · simp only [if_pos hall]
                refine buzzInvP_set h (fun gs0 hgs0 p hp => ?_)
                injection hgs0 with hh2
                subst hh2
                cases hp
              · simp only [if_neg hall]
                refine buzzInvP_set h (fun gs0 hgs0 p hp => ?_)
                injection hgs0 with hh2
                subst hh2
                cases hp

theorem advance_parties_cases (s : ServerState) (code : String) :
    (advanceToNextQuestion s code).1.parties = s.parties ∨
    ∃ party, alGet s.parties code = some party ∧
      (advanceToNextQuestion s code).1.parties = alSet s.parties code (advParty party) := by
  cases hg : alGet s.parties code with
  | none =>
    left
    simp [advanceToNextQuestion, hg]
  | some party =>
    right
    refine ⟨party, rfl, ?_⟩
    by_cases hfin : ((party.questions.length : Int) ≤ party.currentQuestionIndex + 1) <;>
      cases hpt : party.pendingAdvanceTimeout <;>
        simp [advanceToNextQuestion, hg, hpt, hfin, updParty, clearTimeout, advParty]

theorem pinv_advParty (party : Party) : PInv (advParty party) := by
  intro gs0 hgs0 p hp
  simp only [advParty] at hgs0
  cases hpg : party.gameState with
  | none => rw [hpg] at hgs0; cases hgs0
  | some gs =>
    rw [hpg] at hgs0
    injection hgs0 with hh2
    subst hh2
    cases hp

theorem buzzInvP_advance (s : ServerState) (code : String)
    (h : BuzzInvP s.parties) : BuzzInvP (advanceToNextQuestion s code).1.parties := by
  rcases advance_parties_cases s code with heq | ⟨party, hg, heq⟩
  · rw [heq]; exact h
  · rw [heq]; exact buzzInvP_set h (pinv_advParty party)

theorem buzzInvP_next (s : ServerState) (sid : String)
    (h : BuzzInvP s.parties) : BuzzInvP (nextQuestion s sid).st.parties := by
  unfold nextQuestion
  cases hc : alGet s.playerToParty sid with
  | none => exact h
  | some code =>
    dsimp only
    cases hg : alGet s.parties code with
    | none => exact h
    | some party =>
      dsimp only
      cases hgs : party.gameState with
      | none => exact h
      | some gs =>
        dsimp only
        by_cases hh : party.hostId ≠ sid
        · simp only [if_pos hh]; exact h
        · simp only [if_neg hh]
          exact buzzInvP_advance s code h

theorem buzzInvP_fire (s : ServerState) (tid : Nat)
    (h : BuzzInvP s.parties) : BuzzInvP (fireTimer s tid).1.parties := by
  unfold fireTimer
  cases ht : alGet s.armedTimers tid with
  | none => exact h
  | some entry =>
    dsimp only
    cases entry.task with
    | advance code =>
      dsimp only
      exact buzzInvP_advance { s with armedTimers := alDel s.armedTimers tid } code h
    | timeUpChain code =>
      dsimp only
      cases hg : alGet (setTimeout { s with armedTimers := alDel s.armedTimers tid }
          (.advance code) 5000).2.parties code with
      | none => exact h
      | some party =>
        have hparty : alGet s.parties code = some party := hg
        exact buzzInvP_set h (h code party hparty)

/-- The buzzer-not-attempted invariant holds in every reachable state. -/
theorem reachable_buzzInvP (s : ServerState) (h : Reachable s) : BuzzInvP s.parties := by
  induction h with
  | refl => intro c party hp; cases hp
  | tail _ hstep ih =>
    cases hstep with
    | create sid name code hfresh => exact buzzInvP_create _ sid name code ih
    | join sid code name => exact buzzInvP_join _ sid code name ih
    | leave sid => exact buzzInvP_leave _ sid ih
    | disconnect sid => exact buzzInvP_disconnect _ sid ih
    | start sid questions now => exact buzzInvP_start _ sid questions now ih
    | buzzStep sid bp => exact buzzInvP_buzz _ sid bp ih
    | submit sid isCorrect => exact buzzInvP_submit _ sid isCorrect ih
    | next sid => exact buzzInvP_next _ sid ih
    | fire tid => exact buzzInvP_fire _ tid ih

/-! ### Concrete traces used by counterexamples and witnesses -/

def exampleQuestion : Question := ⟨some "abcdefghij"⟩

/-- Host "Alice" (connection "s1") creates party "1234". -/
def trCreate : Res := createParty initState "s1" "Alice" "1234"

/-- A two-question game is started. -/
def trStart : Res := startGame trCreate.st "s1" [exampleQuestion, exampleQuestion] 0

/-- Alice buzzes at character 3 of a 10-character question. -/
def trBuzz : Res := buzz trStart.st "s1" (some 3)

/-- Alice answers correctly (3/10 < 0.5, so 15 points). -/
def trCorrect : Res := submitAnswer trBuzz.st "s1" true

/-- The game state after `trBuzz`, written out. -/
def trBuzzGs : GameState := ⟨.active, some "s1", 3, [], none, 0, false⟩

/-- The party after `trBuzz`, written out. -/
def trBuzzParty : Party :=
  ⟨"1234", "s1", [⟨"s1", "Alice", 0, true, "s1"⟩], true, some trBuzzGs,
   [exampleQuestion, exampleQuestion], 0, none⟩

theorem reachable_trCreate : Reachable trCreate.st :=
  Relation.ReflTransGen.single (Step.create initState "s1" "Alice" "1234" (by decide))

theorem reachable_trStart : Reachable trStart.st :=
  reachable_trCreate.tail (Step.start trCreate.st "s1" [exampleQuestion, exampleQuestion] 0)

theorem reachable_trBuzz : Reachable trBuzz.st :=
  reachable_trStart.tail (Step.buzzStep trStart.st "s1" (some 3))

theorem reachable_trCorrect : Reachable trCorrect.st :=
  reachable_trBuzz.tail (Step.submit trBuzz.st "s1" true)

/-! ### Claim C1 -/

/-- C1, counterexample: in the reachable state right after a correct
`submit_answer`, `buzzedPlayerId` is still "s1" while `buzzLocked` is
true, so "buzzedPlayerId non-null ⇒ buzzLocked = false" fails. -/
theorem C1_counterexample :
    Reachable trCorrect.st ∧
    ((alGet trCorrect.st.parties "1234").bind Party.gameState).map GameState.buzzedPlayerId
      = some (some "s1") ∧
    ((alGet trCorrect.st.parties "1234").bind Party.gameState).map GameState.buzzLocked
      = some true :=
  ⟨reachable_trCorrect, by decide, by decide⟩

/-- C1 (amended): in every reachable server state, whenever a party's
game state has a non-null `buzzedPlayerId`, that player is not in the
`attempted` set. The claim's further conjunct that `buzzLocked` is then
false is dropped: it fails after a correct `submit_answer`, which keeps
`buzzedPlayerId` set while locking the buzzer. -/
theorem C1_theorem (s : ServerState) (hreach : Reachable s)
    (code : String) (party : Party) (gs : GameState) (p : String)
    (hparty : alGet s.parties code = some party)
    (hgs : party.gameState = some gs)
    (hbuzz : gs.buzzedPlayerId = some p) :
    p ∉ gs.attempted :=
  reachable_buzzInvP s hreach code party hparty gs hgs p hbuzz

/-- C1 witness: the amended invariant applied in the reachable state
right after Alice's buzz. -/
theorem C1_witness : "s1" ∉ trBuzzGs.attempted :=
  C1_theorem trBuzz.st reachable_trBuzz "1234" trBuzzParty trBuzzGs "s1"
    (by decide) (by decide) (by decide)

/-! ### Claim C2 -/

/-- A one-question game, finished by the host's forced advance. -/
def trStartOne : Res := startGame trCreate.st "s1" [exampleQuestion] 0

def trFinish : Res := nextQuestion trStartOne.st "s1"

/-- The host sends `next_question` again on the finished game. -/
def trAgain : Res := nextQuestion trFinish.st "s1"

theorem reachable_trStartOne : Reachable trStartOne.st :=
  reachable_trCreate.tail (Step.start trCreate.st "s1" [exampleQuestion] 0)

theorem reachable_trFinish : Reachable trFinish.st :=
  reachable_trStartOne.tail (Step.next trStartOne.st "s1")

/-- C2, counterexample: on a reachable finished game, a further
`next_question` is answered with success (not `GameNotActive`) and the
question index moves from 1 to 2, so the state does change. -/
theorem C2_counterexample :
    Reachable trFinish.st ∧
    ((alGet trFinish.st.parties "1234").bind Party.gameState).map GameState.status
      = some .finished ∧
    (alGet trFinish.st.parties "1234").map Party.currentQuestionIndex = some 1 ∧
    trAgain.reply = Reply.okNext true ∧
    (alGet trAgain.st.parties "1234").map Party.currentQuestionIndex = some 2 :=
  ⟨reachable_trFinish, by decide, by decide, by decide, by decide⟩

/-- C2 (amended): on a finished game a host's `next_question` request is
not rejected: it is acknowledged with success, re-runs the advance (the
question index increments again), and the status remains `finished`. -/
theorem C2_theorem (s : ServerState) (sid code : String) (party : Party) (gs : GameState)
    (hidx : alGet s.playerToParty sid = some code)
    (hparty : alGet s.parties code = some party)
    (hgs : party.gameState = some gs)
    (hfin : gs.status = .finished)
    (hhost : party.hostId = sid) :
    (nextQuestion s sid).reply =
      Reply.okNext (decide ((party.questions.length : Int) ≤ party.currentQuestionIndex + 1)) ∧
    ∃ party', alGet (nextQuestion s sid).st.parties code = some party' ∧
      party'.currentQuestionIndex = party.currentQuestionIndex + 1 ∧
      party'.gameState.map GameState.status = some .finished := by
  have hadv := advance_lookup s code party hparty
  have hhost' : ¬ party.hostId ≠ sid := by simp [hhost]
  constructor
  · simp only [nextQuestion, hidx, hparty, hgs, if_neg hhost', hadv]
    simp [advParty]
  · refine ⟨advParty party, ?_, ?_, ?_⟩
    · simp only [nextQuestion, hidx, hparty, hgs, if_neg hhost']
      exact hadv
    · simp [advParty]
    · simp only [advParty, hgs]
      by_cases hf : ((party.questions.length : Int) ≤ party.currentQuestionIndex + 1) <;>
        simp [hf, hfin]

/-- C2 witness: the amended statement applied to the concrete finished
one-question game. -/
theorem C2_witness :
    trAgain.reply = Reply.okNext (decide (((1:Nat) : Int) ≤ 1 + 1)) ∧
    ∃ party', alGet trAgain.st.parties "1234" = some party' ∧
      party'.currentQuestionIndex = 1 + 1 ∧
      party'.gameState.map GameState.status = some .finished := by
  have h := C2_theorem trFinish.st "s1" "1234"
    ⟨"1234", "s1", [⟨"s1", "Alice", 0, true, "s1"⟩], true,
     some ⟨.finished, none, 0, [], none, 0, false⟩, [exampleQuestion], 1, none⟩
    ⟨.finished, none, 0, [], none, 0, false⟩
    (by decide) (by decide) (by decide) (by decide) (by decide)
  exact h

/-! ### Claim C3 -/

/-- With the 5000 ms advance timer armed by the correct answer still
pending, the host starts a new (one-question) game. -/
def trRestart : Res := startGame trCorrect.st "s1" [exampleQuestion] 7

/-- The stale advance timer fires after the restart. -/
def trStaleFire : ServerState × List Event := fireTimer trRestart.st 0

theorem reachable_trRestart : Reachable trRestart.st :=
  reachable_trCorrect.tail (Step.start trCorrect.st "s1" [exampleQuestion] 7)

/-- C3: `start_game` only nulls `pendingAdvanceTimeout` without calling
`clearTimeout`, so the advance timer armed by the previous game is still
armed after the restart; when it fires it advances the brand-new game
from question 0 straight past its single question, broadcasting
`game_finished` for a game nobody played. -/
theorem C3_theorem :
    Reachable trRestart.st ∧
    -- the handle was dropped ...
    (alGet trRestart.st.parties "1234").map Party.pendingAdvanceTimeout = some none ∧
    -- ... but the old timer is still armed ...
    alGet trRestart.st.armedTimers 0 = some ⟨.advance "1234", 5000⟩ ∧
    -- ... against a freshly initialized game at question 0 ...
    (alGet trRestart.st.parties "1234").map Party.currentQuestionIndex = some 0 ∧
    ((alGet trRestart.st.parties "1234").bind Party.gameState).map GameState.status
      = some .active ∧
    -- ... and firing it mutates the new game:
    (alGet trStaleFire.1.parties "1234").map Party.currentQuestionIndex = some 1 ∧
    ((alGet trStaleFire.1.parties "1234").bind Party.gameState).map GameState.status
      = some .finished ∧
    trStaleFire.2 = [Event.game_finished [⟨"s1", "Alice", 0, true, "s1"⟩]] :=
  ⟨reachable_trRestart, by decide, by decide, by decide, by decide,
   by decide, by decide, by decide⟩

/-! ### Claim C4 -/

/-- Alice buzzes with a negative numeric buzz point. -/
def trBuzzNeg : Res := buzz trStart.st "s1" (some (-3))

/-- C4, counterexample: a successful buzz with numeric input -3 stores
buzzPoint = -3, which is negative, so no clamping to a non-negative
value happens. -/
theorem C4_counterexample :
    Reachable trStart.st ∧
    trBuzzNeg.reply = Reply.ok ∧
    ((alGet trBuzzNeg.st.parties "1234").bind Party.gameState).map GameState.buzzPoint
      = some (-3) ∧
    ¬ (0 : ℚ) ≤ -3 :=
  ⟨reachable_trStart, by decide, by decide, by decide⟩

/-- C4 (amended): a successful buzz stores the supplied buzz point
exactly as sent when it is numeric (negative values included, no
clamping), and 0 when it is not numeric. -/
theorem C4_theorem (s : ServerState) (sid : String) (bp : Option ℚ)
    (code : String) (party : Party) (gs : GameState)
    (h1 : alGet s.playerToParty sid = some code)
    (h2 : alGet s.parties code = some party)
    (h3 : party.gameState = some gs)
    (h4 : jsTruthyStr gs.buzzedPlayerId = false)
    (h5 : gs.buzzLocked = false)
    (h6 : sid ∉ gs.attempted) :
    (buzz s sid bp).reply = Reply.ok ∧
    ((alGet (buzz s sid bp).st.parties code).bind Party.gameState).map GameState.buzzPoint
      = some (bp.getD 0) := by
  rw [buzz_success s sid bp code party gs h1 h2 h3 h4 h5 h6]
  exact ⟨rfl, by simp [updParty, alGet_set_eq]⟩

/-- C4 witness: a buzz with numeric input 5 in the concrete fresh game
stores exactly 5. -/
theorem C4_witness :
    (buzz trStart.st "s1" (some 5)).reply = Reply.ok ∧
    ((alGet (buzz trStart.st "s1" (some 5)).st.parties "1234").bind Party.gameState).map
        GameState.buzzPoint = some ((some (5:ℚ)).getD 0) :=
  C4_theorem trStart.st "s1" (some 5) "1234"
    ⟨"1234", "s1", [⟨"s1", "Alice", 0, true, "s1"⟩], true,
     some ⟨.active, none, 0, [], none, 0, false⟩, [exampleQuestion, exampleQuestion], 0, none⟩
    ⟨.active, none, 0, [], none, 0, false⟩
    (by decide) (by decide) (by decide) (by decide) (by decide) (by decide)

/-! ### Claim C5 -/

theorem jsOrZero_eq (q : ℚ) : jsOrZero q = q := by
  unfold jsOrZero
  by_cases h : q = 0
  · rw [if_pos h, h]
  · rw [if_neg h]

/-- The scoring rule exactly as the specification words it: a pure
function of (isCorrect, buzzPoint, questionLength). -/
def scoringFunction (isCorrect : Bool) (buzzPoint : ℚ) (questionLength : Nat) : Int :=
  if isCorrect then
    (if buzzPoint / (max 1 questionLength : ℚ) < 1/2 then 15 else 10)
  else -5

/-- The handler's inline computation agrees with the specification's
pure function, applied to the stored buzz point and the current
question's length. -/
theorem computedPointsFor_eq_scoring (c : Bool) (party : Party) (gs : GameState) :
    computedPointsFor c party gs = scoringFunction c gs.buzzPoint (jsQuestionLen party) := by
  unfold computedPointsFor scoringFunction
  rw [ratDiv_eq_div, jsHalf_eq, jsOrZero_eq]

/-- C5: a successful `submit_answer` adds to the submitting player's
score exactly `scoringFunction isCorrect gs.buzzPoint questionLength`:
-5 when incorrect, 15 when correct with buzzPoint / max(1, length) < 0.5,
and otherwise 10. -/
theorem C5_theorem (s : ServerState) (sid code : String) (party : Party)
    (gs : GameState) (player : Player) (isCorrect : Bool)
    (h1 : alGet s.playerToParty sid = some code)
    (h2 : alGet s.parties code = some party)
    (h3 : party.gameState = some gs)
    (h4 : gs.buzzedPlayerId = some sid)
    (h5 : findPlayer party.players sid = some player) :
    (submitAnswer s sid isCorrect).reply = Reply.ok ∧
    ∃ party', alGet (submitAnswer s sid isCorrect).st.parties code = some party' ∧
      findPlayer party'.players sid = some { player with
        score := player.score + scoringFunction isCorrect gs.buzzPoint (jsQuestionLen party) } := by
  have hfind := findPlayer_updateFirst party.players sid
  have hsc := computedPointsFor_eq_scoring isCorrect party gs
  cases isCorrect with
  | true =>
    rw [submitAnswer_correct s sid code party gs player h1 h2 h3 h4 h5]
    refine ⟨rfl, _, alGet_set_eq _ _ _, ?_⟩
    rw [hfind (fun p => { p with score := p.score + computedPointsFor true party gs })
      (fun q => rfl), h5, ← hsc]
    rfl
  | false =>
    by_cases hall : party.players.length ≤ (setAdd gs.attempted sid).length
    · rw [submitAnswer_incorrect_all s sid code party gs player h1 h2 h3 h4 h5 hall]
      refine ⟨rfl, _, alGet_set_eq _ _ _, ?_⟩
      rw [hfind (fun p => { p with score := p.score + (-5) }) (fun q => rfl), h5, ← hsc]
      rfl
    · rw [submitAnswer_incorrect_notall s sid code party gs player h1 h2 h3 h4 h5 hall]
      refine ⟨rfl, _, alGet_set_eq _ _ _, ?_⟩
      rw [hfind (fun p => { p with score := p.score + (-5) }) (fun q => rfl), h5, ← hsc]
      rfl

/-- C5 witness: Alice's correct answer after buzzing at character 3 of a
10-character question adds exactly 15 points. -/
theorem C5_witness :
    trCorrect.reply = Reply.ok ∧
    ∃ party', alGet trCorrect.st.parties "1234" = some party' ∧
      findPlayer party'.players "s1" = some ⟨"s1", "Alice",
        0 + scoringFunction true trBuzzGs.buzzPoint (jsQuestionLen trBuzzParty), true, "s1"⟩ :=
  C5_theorem trBuzz.st "s1" "1234" trBuzzParty trBuzzGs
    ⟨"s1", "Alice", 0, true, "s1"⟩ true
    (by decide) (by decide) (by decide) (by decide) (by decide)

/-! ### Claim C6 -/

/-- C6: for a well-formed `join_party` request (non-empty code and
non-empty trimmed name), the checks run in this order: unknown code
gives PartyNotFound, a roster of 8 or more gives PartyFull, a
case-insensitive collision of the trimmed name gives NameTaken, and only
otherwise a non-host player is appended to the roster and the connection
is indexed to the party. -/
theorem C6_theorem (s : ServerState) (sid partyCode playerName : String)
    (hcode : partyCode ≠ "") (hname : jsTrim playerName ≠ "") :
    (alGet s.parties partyCode = none →
      (joinParty s sid partyCode playerName).reply = .err .PartyNotFound) ∧
    (∀ party, alGet s.parties partyCode = some party →
      8 ≤ party.players.length →
      (joinParty s sid partyCode playerName).reply = .err .PartyFull) ∧
    (∀ party, alGet s.parties partyCode = some party →
      party.players.length < 8 →
      party.players.any (fun p => decide (jsToLower p.name = jsToLower (jsTrim playerName)))
        = true →
      (joinParty s sid partyCode playerName).reply = .err .NameTaken) ∧
    (∀ party, alGet s.parties partyCode = some party →
      party.players.length < 8 →
      party.players.any (fun p => decide (jsToLower p.name = jsToLower (jsTrim playerName)))
        = false →
      (joinParty s sid partyCode playerName).reply = .okJoin sid ∧
      alGet (joinParty s sid partyCode playerName).st.parties partyCode =
        some { party with players := party.players ++ [⟨sid, jsTrim playerName, 0, false, sid⟩] } ∧
      alGet (joinParty s sid partyCode playerName).st.playerToParty sid = some partyCode) := by
  have hval : ¬ (partyCode = "" ∨ jsTrim playerName = "") := by
    intro hor
    rcases hor with h | h
    · exact hcode h
    · exact hname h
  refine ⟨?_, ?_, ?_, ?_⟩
  · intro hget
    simp [joinParty, if_neg hval, hget]
  · intro party hget hfull
    simp [joinParty, if_neg hval, hget, hfull]
  · intro party hget hsmall hcoll
    have hnotfull : ¬ 8 ≤ party.players.length := by omega
    simp [joinParty, if_neg hval, hget, hnotfull, hcoll]
  · intro party hget hsmall hcoll
    have hnotfull : ¬ 8 ≤ party.players.length := by omega
    refine ⟨?_, ?_, ?_⟩
    · simp [joinParty, if_neg hval, hget, hnotfull, hcoll]
    · simp only [joinParty, if_neg hval, hget, hnotfull, hcoll]
      simp [alGet_set_eq]
    · simp only [joinParty, if_neg hval, hget, hnotfull, hcoll]
      simp [alGet_set_eq]

/-- C6 witness: "bob" joins Alice's fresh party "1234" and the success
case of the characterization applies. -/
theorem C6_witness :
    (joinParty trCreate.st "s2" "1234" "bob").reply = .okJoin "s2" ∧
    alGet (joinParty trCreate.st "s2" "1234" "bob").st.parties "1234" =
      some { code := "1234", hostId := "s1",
             players := [⟨"s1", "Alice", 0, true, "s1"⟩] ++ [⟨"s2", jsTrim "bob", 0, false, "s2"⟩],
             settingsSet := false, gameState := none, questions := [],
             currentQuestionIndex := -1, pendingAdvanceTimeout := none } ∧
    alGet (joinParty trCreate.st "s2" "1234" "bob").st.playerToParty "s2" = some "1234" :=
  (C6_theorem trCreate.st "s2" "1234" "bob" (by decide) (by decide)).2.2.2
    ⟨"1234", "s1", [⟨"s1", "Alice", 0, true, "s1"⟩], false, none, [], -1, none⟩
    (by decide) (by decide) (by decide)

/-! ### Claim C7 -/

theorem sid_not_mem_removePlayer (ps : List Player) (sid : String) :
    sid ∉ (removePlayer ps sid).map Player.id := by
  intro hmem
  rcases List.mem_map.mp hmem with ⟨q, hq, hid⟩
  have h2 := (List.mem_filter.mp hq).2
  simp only [decide_eq_true_eq] at h2
  exact h2 hid

theorem map_id_removePlayer_sublist (ps : List Player) (sid : String) :
    ((removePlayer ps sid).map Player.id).Sublist (ps.map Player.id) :=
  (List.filter_sublist ps).map Player.id

theorem nodup_removePlayer (ps : List Player) (sid : String)
    (hnd : (ps.map Player.id).Nodup) : ((removePlayer ps sid).map Player.id).Nodup :=
  (map_id_removePlayer_sublist ps sid).nodup hnd

theorem hostId_mem_removePlayer (ps : List Player) (sid hid : String)
    (hmem : hid ∈ ps.map Player.id) (hne : hid ≠ sid) :
    hid ∈ (removePlayer ps sid).map Player.id := by
  rcases List.mem_map.mp hmem with ⟨q, hq, hqid⟩
  refine List.mem_map.mpr ⟨q, ?_, hqid⟩
  refine List.mem_filter.mpr ⟨hq, ?_⟩
  simp only [decide_eq_true_eq]
  rw [hqid]
  exact hne

theorem map_id_assignHost (ps : List Player) :
    (assignHost ps).map Player.id = ps.map Player.id := by
  cases ps with
  | nil => rfl
  | cons q rest => rfl

/-- A roster whose `isHost` flags point exactly at a present, unique id
has exactly one host flag set. -/
theorem countP_isHost_eq_one (l : List Player) (hid : String)
    (hnd : (l.map Player.id).Nodup) (hmem : hid ∈ l.map Player.id)
    (hflag : ∀ q ∈ l, q.isHost = decide (q.id = hid)) :
    l.countP (fun p => p.isHost) = 1 := by
  induction l with
  | nil => simp at hmem
  | cons q rest ih =>
    simp only [List.map_cons, List.nodup_cons] at hnd
    rcases hnd with ⟨hqnotin, hndrest⟩
    simp only [List.map_cons, List.mem_cons] at hmem
    rcases hmem with heq | hmemrest
    · have hq : q.isHost = true := by
        rw [hflag q (List.mem_cons_self q rest)]
        simp [heq]
      have hrest0 : rest.countP (fun p => p.isHost) = 0 := by
        rw [List.countP_eq_zero]
        intro r hr
        rw [hflag r (List.mem_cons_of_mem q hr)]
        simp only [decide_eq_true_eq]
        intro hrid
        refine hqnotin ?_
        rw [← heq, ← hrid]
        exact List.mem_map_of_mem Player.id hr
      rw [List.countP_cons, hrest0, hq]
      simp
    · have hq : q.isHost = false := by
        rw [hflag q (List.mem_cons_self q rest)]
        simp only [decide_eq_false_iff_not]
        intro hqid
        exact hqnotin (hqid ▸ hmemrest)
      rw [List.countP_cons,
        ih hndrest hmemrest (fun r hr => hflag r (List.mem_cons_of_mem q hr)), hq]
      simp

theorem mem_of_mem_removePlayer {q : Player} {ps : List Player} {sid : String}
    (h : q ∈ removePlayer ps sid) : q ∈ ps :=
  (List.mem_filter.mp h).1

theorem id_ne_of_mem_removePlayer {q : Player} {ps : List Player} {sid : String}
    (h : q ∈ removePlayer ps sid) : q.id ≠ sid := by
  have h2 := (List.mem_filter.mp h).2
  simpa using h2

theorem countP_assignHost (remaining : List Player)
    (hne : remaining ≠ [])
    (hnd : (remaining.map Player.id).Nodup)
    (hflag0 : ∀ q ∈ remaining, q.isHost = false) :
    (assignHost remaining).countP (fun p => p.isHost) = 1 := by
  refine countP_isHost_eq_one (assignHost remaining) (headPlayerId remaining) ?_ ?_ ?_
  · rw [map_id_assignHost]; exact hnd
  · cases remaining with
    | nil => exact absurd rfl hne
    | cons r0 rest => simp [assignHost, headPlayerId]
  · intro q hq
    cases remaining with
    | nil => exact absurd rfl hne
    | cons r0 rest =>
      simp only [assignHost, List.mem_cons] at hq
      rcases hq with hq | hq
      · subst hq
        simp [headPlayerId]
      · have hfalse := hflag0 q (List.mem_cons_of_mem r0 hq)
        rw [hfalse]
        simp only [List.map_cons, List.nodup_cons] at hnd
        symm
        simp only [headPlayerId, decide_eq_false_iff_not]
        intro hqid
        exact hnd.1 (hqid ▸ List.mem_map_of_mem Player.id hq)

theorem disconnect_st_eq_leave_st (s : ServerState) (sid code : String) (party : Party)
    (hidx : alGet s.playerToParty sid = some code)
    (hparty : alGet s.parties code = some party) :
    (onDisconnect s sid).st = (leaveParty s sid).st := by
  by_cases hlen : (removePlayer party.players sid).length = 0 <;>
    simp [onDisconnect, leaveParty, hidx, hparty, hlen]

/-- C7: a `leave_party` or `disconnect` of an indexed player removes the
player from the roster and de-indexes the connection; the party is
deleted exactly when the remaining roster is empty; otherwise, when the
leaver was host, the host becomes the first remaining player in join
order with its `isHost` flag set, and in every case exactly one player
of the surviving roster has `isHost = true`. -/
theorem C7_theorem (s : ServerState) (sid code : String) (party : Party)
    (hidx : alGet s.playerToParty sid = some code)
    (hparty : alGet s.parties code = some party)
    (hnd : (party.players.map Player.id).Nodup)
    (hhostmem : party.hostId ∈ party.players.map Player.id)
    (hflag : ∀ q ∈ party.players, q.isHost = decide (q.id = party.hostId)) :
    (leaveParty s sid).reply = Reply.ok ∧
    alGet (leaveParty s sid).st.playerToParty sid = none ∧
    alGet (onDisconnect s sid).st.playerToParty sid = none ∧
    (removePlayer party.players sid = [] →
      alGet (leaveParty s sid).st.parties code = none ∧
      alGet (onDisconnect s sid).st.parties code = none) ∧
    (removePlayer party.players sid ≠ [] →
      ∃ party',
        alGet (leaveParty s sid).st.parties code = some party' ∧
        alGet (onDisconnect s sid).st.parties code = some party' ∧
        sid ∉ party'.players.map Player.id ∧
        (party.hostId = sid →
          party'.hostId = headPlayerId (removePlayer party.players sid) ∧
          party'.players = assignHost (removePlayer party.players sid)) ∧
        (party.hostId ≠ sid →
          party'.hostId = party.hostId ∧
          party'.players = removePlayer party.players sid) ∧
        party'.players.countP (fun p => p.isHost) = 1) := by
  have hstu := disconnect_st_eq_leave_st s sid code party hidx hparty
  by_cases hlen : (removePlayer party.players sid).length = 0
  · have hnil : removePlayer party.players sid = [] := List.length_eq_zero.mp hlen
    refine ⟨?_, ?_, ?_, ?_, ?_⟩
    · simp [leaveParty, hidx, hparty, hlen]
    · simp [leaveParty, hidx, hparty, hlen, alGet_del_self]
    · rw [hstu]
      simp [leaveParty, hidx, hparty, hlen, alGet_del_self]
    · intro _
      rw [hstu]
      constructor <;> simp [leaveParty, hidx, hparty, hlen, alGet_del_self]
    · intro hcontra
      exact absurd hnil hcontra
  · have hne : removePlayer party.players sid ≠ [] := by
      intro hnil
      exact hlen (by rw [hnil]; rfl)
    have hflag0 : ∀ q ∈ removePlayer party.players sid,
        party.hostId = sid → q.isHost = false := by
      intro q hq hhost
      rw [hflag q (mem_of_mem_removePlayer hq)]
      simp only [decide_eq_false_iff_not]
      rw [hhost]
      exact id_ne_of_mem_removePlayer hq
    refine ⟨?_, ?_, ?_, ?_, ?_⟩
    · simp [leaveParty, hidx, hparty, hlen]
    · simp [leaveParty, hidx, hparty, hlen, updParty, alGet_del_self]
    · rw [hstu]
      simp [leaveParty, hidx, hparty, hlen, updParty, alGet_del_self]
    · intro hcontra
      exact absurd hcontra hne
    · intro _
      by_cases hhost : party.hostId = sid
      · refine ⟨{ party with
            players := assignHost (removePlayer party.players sid),
            hostId := headPlayerId (removePlayer party.players sid) }, ?_, ?_, ?_, ?_, ?_, ?_⟩
        · simp only [leaveParty, hidx, hparty, if_neg hlen, if_pos hhost]
          exact alGet_set_eq _ _ _
        · rw [hstu]
          simp only [leaveParty, hidx, hparty, if_neg hlen, if_pos hhost]
          exact alGet_set_eq _ _ _
        · show sid ∉ (assignHost (removePlayer party.players sid)).map Player.id
          rw [map_id_assignHost]
          exact sid_not_mem_removePlayer party.players sid
        · intro _
          exact ⟨rfl, rfl⟩
        · intro hcontra
          exact absurd hhost hcontra
        · exact countP_assignHost (removePlayer party.players sid) hne
            (nodup_removePlayer party.players sid hnd)
            (fun q hq => hflag0 q hq hhost)
      · refine ⟨{ party with players := removePlayer party.players sid }, ?_, ?_, ?_, ?_, ?_, ?_⟩
        · simp only [leaveParty, hidx, hparty, if_neg hlen, if_neg hhost]
          exact alGet_set_eq _ _ _
        · rw [hstu]
          simp only [leaveParty, hidx, hparty, if_neg hlen, if_neg hhost]
          exact alGet_set_eq _ _ _
        · exact sid_not_mem_removePlayer party.players sid
        · intro hcontra
          exact absurd hcontra hhost
        · intro _
          exact ⟨rfl, rfl⟩
        · refine countP_isHost_eq_one (removePlayer party.players sid) party.hostId
            (nodup_removePlayer party.players sid hnd)
            (hostId_mem_removePlayer party.players sid party.hostId hhostmem hhost)
            (fun q hq => hflag q (mem_of_mem_removePlayer hq))

/-- "Bob" joins Alice's party "1234". -/
def trJoin : Res := joinParty trCreate.st "s2" "1234" "Bob"

/-- The two-player party after `trJoin`, written out. -/
def trJoinParty : Party :=
  ⟨"1234", "s1",
   [⟨"s1", "Alice", 0, true, "s1"⟩, ⟨"s2", "Bob", 0, false, "s2"⟩],
   false, none, [], -1, none⟩

/-- C7 witness: the host Alice leaves the two-player party, Bob becomes
host; the characterization applies with all hypotheses discharged. -/
theorem C7_witness :
    (leaveParty trJoin.st "s1").reply = Reply.ok ∧
    alGet (leaveParty trJoin.st "s1").st.playerToParty "s1" = none ∧
    alGet (onDisconnect trJoin.st "s1").st.playerToParty "s1" = none ∧
    (removePlayer trJoinParty.players "s1" = [] →
      alGet (leaveParty trJoin.st "s1").st.parties "1234" = none ∧
      alGet (onDisconnect trJoin.st "s1").st.parties "1234" = none) ∧
    (removePlayer trJoinParty.players "s1" ≠ [] →
      ∃ party',
        alGet (leaveParty trJoin.st "s1").st.parties "1234" = some party' ∧
        alGet (onDisconnect trJoin.st "s1").st.parties "1234" = some party' ∧
        "s1" ∉ party'.players.map Player.id ∧
        (trJoinParty.hostId = "s1" →
          party'.hostId = headPlayerId (removePlayer trJoinParty.players "s1") ∧
          party'.players = assignHost (removePlayer trJoinParty.players "s1")) ∧
        (trJoinParty.hostId ≠ "s1" →
          party'.hostId = trJoinParty.hostId ∧
          party'.players = removePlayer trJoinParty.players "s1") ∧
        party'.players.countP (fun p => p.isHost) = 1) :=
  C7_theorem trJoin.st "s1" "1234" trJoinParty
    (by decide) (by decide) (by decide) (by decide) (by decide)

/-! ### Claim C8 -/

theorem alGet_append_singleton {κ α : Type} [DecidableEq κ]
    (l : List (κ × α)) (k : κ) (v : α) (h : alGet l k = none) :
    alGet (l ++ [(k, v)]) k = some v := by
  rw [alGet_append_of_none l _ k h]
  simp [alGet]

/-- Firing an armed time-up timer broadcasts `time_up` and only then
arms the inner 5000 ms advance timer, storing its handle on the party. -/
theorem fireTimer_timeUp (st : ServerState) (tid : Nat) (code : String) (party' : Party)
    (hlook : alGet st.armedTimers tid = some ⟨.timeUpChain code, 1800⟩)
    (hparty : alGet st.parties code = some party')
    (hfresh2 : alGet (alDel st.armedTimers tid) st.nextTimerId = none) :
    (fireTimer st tid).2 = [Event.time_up] ∧
    alGet (fireTimer st tid).1.armedTimers st.nextTimerId = some ⟨.advance code, 5000⟩ ∧
    alGet (fireTimer st tid).1.parties code
      = some { party' with pendingAdvanceTimeout := some st.nextTimerId } := by
  have hp2 : alGet (setTimeout { st with armedTimers := alDel st.armedTimers tid }
      (.advance code) 5000).2.parties code = some party' := hparty
  refine ⟨?_, ?_, ?_⟩
  · simp only [fireTimer, hlook]
    rw [hp2]
  · simp only [fireTimer, hlook]
    rw [hp2]
    exact alGet_append_singleton _ _ _ hfresh2
  · simp only [fireTimer, hlook]
    rw [hp2]
    exact alGet_set_eq _ _ _

/-- C8: an incorrect `submit_answer` by the current buzzer clears the
buzzer, resets buzzPoint to 0, adds the caller to `attempted`, and
broadcasts `buzz_unlocked`; when the attempted set has grown to the
roster size, a 1800 ms `time_up` timer is armed, and only when it fires
does it broadcast `time_up` and arm the 5000 ms advance timer. -/
theorem C8_theorem (s : ServerState) (sid code : String) (party : Party)
    (gs : GameState) (player : Player)
    (h1 : alGet s.playerToParty sid = some code)
    (h2 : alGet s.parties code = some party)
    (h3 : party.gameState = some gs)
    (h4 : gs.buzzedPlayerId = some sid)
    (h5 : findPlayer party.players sid = some player)
    (hall : party.players.length ≤ (setAdd gs.attempted sid).length)
    (hfresh : ∀ t, s.nextTimerId ≤ t → alGet s.armedTimers t = none) :
    (submitAnswer s sid false).reply = Reply.ok ∧
    (∃ party', alGet (submitAnswer s sid false).st.parties code = some party' ∧
      party'.gameState = some { gs with
        buzzedPlayerId := none, buzzPoint := 0, attempted := setAdd gs.attempted sid } ∧
      party'.pendingAdvanceTimeout = some s.nextTimerId) ∧
    Event.buzz_unlocked player.name sid (setAdd gs.attempted sid)
      ∈ (submitAnswer s sid false).events ∧
    alGet (submitAnswer s sid false).st.armedTimers s.nextTimerId
      = some ⟨.timeUpChain code, 1800⟩ ∧
    (fireTimer (submitAnswer s sid false).st s.nextTimerId).2 = [Event.time_up] ∧
    alGet (fireTimer (submitAnswer s sid false).st s.nextTimerId).1.armedTimers
      (s.nextTimerId + 1) = some ⟨.advance code, 5000⟩ ∧
    (∃ party'', alGet (fireTimer (submitAnswer s sid false).st s.nextTimerId).1.parties code
        = some party'' ∧
      party''.pendingAdvanceTimeout = some (s.nextTimerId + 1)) := by
  rw [submitAnswer_incorrect_all s sid code party gs player h1 h2 h3 h4 h5 hall]
  have hc4 : alGet (s.armedTimers ++ [(s.nextTimerId, (⟨.timeUpChain code, 1800⟩ : TimerEntry))])
      s.nextTimerId = some ⟨.timeUpChain code, 1800⟩ :=
    alGet_append_singleton _ _ _ (hfresh s.nextTimerId le_rfl)
  have hfresh2 : alGet (alDel
      (s.armedTimers ++ [(s.nextTimerId, (⟨.timeUpChain code, 1800⟩ : TimerEntry))])
      s.nextTimerId) (s.nextTimerId + 1) = none := by
    rw [alGet_del_ne _ _ _ (by omega)]
    rw [alGet_append_of_none _ _ _ (hfresh (s.nextTimerId + 1) (by omega))]
    simp only [alGet, List.find?_cons]
    rw [show (decide (s.nextTimerId = s.nextTimerId + 1)) = false by
      simp only [decide_eq_false_iff_not]; omega]
    rfl
  have hfire := fireTimer_timeUp
    (updParty { s with
        armedTimers := s.armedTimers ++ [(s.nextTimerId, ⟨.timeUpChain code, 1800⟩)],
        nextTimerId := s.nextTimerId + 1 } code
      { party with
        players := updateFirst party.players sid (fun p => { p with score := p.score + (-5) }),
        gameState := some { gs with
          buzzedPlayerId := none, buzzPoint := 0, attempted := setAdd gs.attempted sid },
        pendingAdvanceTimeout := some s.nextTimerId })
    s.nextTimerId code
    { party with
      players := updateFirst party.players sid (fun p => { p with score := p.score + (-5) }),
      gameState := some { gs with
        buzzedPlayerId := none, buzzPoint := 0, attempted := setAdd gs.attempted sid },
      pendingAdvanceTimeout := some s.nextTimerId }
    hc4 (alGet_set_eq _ _ _) hfresh2
  exact ⟨rfl, ⟨_, alGet_set_eq _ _ _, rfl, rfl⟩, by simp, hc4,
    hfire.1, hfire.2.1, ⟨_, hfire.2.2, rfl⟩⟩

/-- Alice buzzes at character 2 in the one-question game. -/
def trBuzzOne : Res := buzz trStartOne.st "s1" (some 2)

/-- C8 witness: Alice (sole player) answers incorrectly; the attempted
set reaches the roster size and the 1800 ms / 5000 ms timer chain arms
as described. -/
theorem C8_witness :
    (submitAnswer trBuzzOne.st "s1" false).reply = Reply.ok ∧
    (∃ party', alGet (submitAnswer trBuzzOne.st "s1" false).st.parties "1234" = some party' ∧
      party'.gameState = some ⟨.active, none, 0, setAdd [] "s1", none, 0, false⟩ ∧
      party'.pendingAdvanceTimeout = some 0) ∧
    Event.buzz_unlocked "Alice" "s1" (setAdd [] "s1")
      ∈ (submitAnswer trBuzzOne.st "s1" false).events ∧
    alGet (submitAnswer trBuzzOne.st "s1" false).st.armedTimers 0
      = some ⟨.timeUpChain "1234", 1800⟩ ∧
    (fireTimer (submitAnswer trBuzzOne.st "s1" false).st 0).2 = [Event.time_up] ∧
    alGet (fireTimer (submitAnswer trBuzzOne.st "s1" false).st 0).1.armedTimers (0 + 1)
      = some ⟨.advance "1234", 5000⟩ ∧
    (∃ party'', alGet (fireTimer (submitAnswer trBuzzOne.st "s1" false).st 0).1.parties "1234"
        = some party'' ∧
      party''.pendingAdvanceTimeout = some (0 + 1)) :=
  C8_theorem trBuzzOne.st "s1" "1234"
    ⟨"1234", "s1", [⟨"s1", "Alice", 0, true, "s1"⟩], true,
     some ⟨.active, some "s1", 2, [], none, 0, false⟩, [exampleQuestion], 0, none⟩
    ⟨.active, some "s1", 2, [], none, 0, false⟩
    ⟨"s1", "Alice", 0, true, "s1"⟩
    (by decide) (by decide) (by decide) (by decide) (by decide) (by decide)
    (fun t _ => rfl)

/-! ### Claim C9 -/

theorem buzz_alreadyBuzzed (s : ServerState) (sid : String) (bp : Option ℚ)
    (code : String) (party : Party) (gs : GameState)
    (h1 : alGet s.playerToParty sid = some code)
    (h2 : alGet s.parties code = some party)
    (h3 : party.gameState = some gs)
    (h4 : jsTruthyStr gs.buzzedPlayerId = true) :
    buzz s sid bp = ⟨s, .err .AlreadyBuzzed, []⟩ := by
  simp [buzz, h1, h2, h3, h4]

/-- C9: when the current buzzer `p` leaves or disconnects (and other
players remain), the party's gameState is left untouched — the departed
player still holds the buzz — so every later buzz by any player still
indexed to the party fails with AlreadyBuzzed; only the question advance
clears the stale buzzer. -/
theorem C9_theorem (s : ServerState) (p code : String) (party : Party) (gs : GameState)
    (hidxp : alGet s.playerToParty p = some code)
    (hparty : alGet s.parties code = some party)
    (hgs : party.gameState = some gs)
    (hbz : gs.buzzedPlayerId = some p)
    (hpne : p ≠ "")
    (hrem : removePlayer party.players p ≠ []) :
    (∃ party', alGet (leaveParty s p).st.parties code = some party' ∧
      party'.gameState = some gs) ∧
    (∃ party', alGet (onDisconnect s p).st.parties code = some party' ∧
      party'.gameState = some gs) ∧
    (∀ q bp, alGet (leaveParty s p).st.playerToParty q = some code →
      (buzz (leaveParty s p).st q bp).reply = Reply.err .AlreadyBuzzed) ∧
    (∀ q bp, alGet (onDisconnect s p).st.playerToParty q = some code →
      (buzz (onDisconnect s p).st q bp).reply = Reply.err .AlreadyBuzzed) ∧
    (∃ party'', alGet (advanceToNextQuestion (leaveParty s p).st code).1.parties code
        = some party'' ∧
      party''.gameState.map GameState.buzzedPlayerId = some none) := by
  have hstu := disconnect_st_eq_leave_st s p code party hidxp hparty
  have hlen : ¬ (removePlayer party.players p).length = 0 := by
    intro h
    exact hrem (List.length_eq_zero.mp h)
  have htruthy : jsTruthyStr gs.buzzedPlayerId = true := by
    rw [hbz]
    simp [jsTruthyStr, hpne]
  have hlp : ∃ party', alGet (leaveParty s p).st.parties code = some party' ∧
      party'.gameState = party.gameState := by
    by_cases hhost : party.hostId = p
    · have hlk : alGet (leaveParty s p).st.parties code =
          some { party with
            players := assignHost (removePlayer party.players p),
            hostId := headPlayerId (removePlayer party.players p) } := by
        simp only [leaveParty, hidxp, hparty, if_neg hlen, if_pos hhost]
        exact alGet_set_eq _ _ _
      exact ⟨_, hlk, rfl⟩
    · have hlk : alGet (leaveParty s p).st.parties code =
          some { party with players := removePlayer party.players p } := by
        simp only [leaveParty, hidxp, hparty, if_neg hlen, if_neg hhost]
        exact alGet_set_eq _ _ _
      exact ⟨_, hlk, rfl⟩
  rcases hlp with ⟨party', hlook, hgseq⟩
  have hgs' : party'.gameState = some gs := by rw [hgseq, hgs]
  refine ⟨⟨party', hlook, hgs'⟩, ⟨party', by rw [hstu]; exact hlook, hgs'⟩, ?_, ?_, ?_⟩
  · intro q bp hq
    rw [buzz_alreadyBuzzed (leaveParty s p).st q bp code party' gs hq hlook hgs' htruthy]
  · intro q bp hq
    rw [hstu] at hq ⊢
    rw [buzz_alreadyBuzzed (leaveParty s p).st q bp code party' gs hq hlook hgs' htruthy]
  · refine ⟨advParty party', advance_lookup _ code party' hlook, ?_⟩
    simp [advParty, hgs']

/-- A one-question game in the two-player party. -/
def trStartTwo : Res := startGame trJoin.st "s1" [exampleQuestion] 0

/-- Bob buzzes at character 4. -/
def trBuzzBob : Res := buzz trStartTwo.st "s2" (some 4)

/-- C9 witness: Bob holds the buzz and leaves or disconnects; any buzz by
a player still in the party is refused with AlreadyBuzzed. -/
theorem C9_witness :
    (∃ party', alGet (leaveParty trBuzzBob.st "s2").st.parties "1234" = some party' ∧
      party'.gameState = some ⟨.active, some "s2", 4, [], none, 0, false⟩) ∧
    (∃ party', alGet (onDisconnect trBuzzBob.st "s2").st.parties "1234" = some party' ∧
      party'.gameState = some ⟨.active, some "s2", 4, [], none, 0, false⟩) ∧
    (∀ q bp, alGet (leaveParty trBuzzBob.st "s2").st.playerToParty q = some "1234" →
      (buzz (leaveParty trBuzzBob.st "s2").st q bp).reply = Reply.err .AlreadyBuzzed) ∧
    (∀ q bp, alGet (onDisconnect trBuzzBob.st "s2").st.playerToParty q = some "1234" →
      (buzz (onDisconnect trBuzzBob.st "s2").st q bp).reply = Reply.err .AlreadyBuzzed) ∧
    (∃ party'', alGet (advanceToNextQuestion (leaveParty trBuzzBob.st "s2").st "1234").1.parties
        "1234" = some party'' ∧
      party''.gameState.map GameState.buzzedPlayerId = some none) :=
  C9_theorem trBuzzBob.st "s2" "1234"
    ⟨"1234", "s1",
     [⟨"s1", "Alice", 0, true, "s1"⟩, ⟨"s2", "Bob", 0, false, "s2"⟩], true,
     some ⟨.active, some "s2", 4, [], none, 0, false⟩, [exampleQuestion], 0, none⟩
    ⟨.active, some "s2", 4, [], none, 0, false⟩
    (by decide) (by decide) (by decide) (by decide) (by decide) (by decide)

/-! ### Claim C10 -/

theorem findPlayer_updateScore (ps : List Player) (pid : String) (d : Int) :
    findPlayer (updateFirst ps pid (fun p => { p with score := p.score + d })) pid
      = (findPlayer ps pid).map (fun p => { p with score := p.score + d }) := by
  apply findPlayer_updateFirst
  intro q
  rfl

/-- C10: `submit_answer` only checks that the caller holds the buzz, so
after a correct answer — which leaves `buzzedPlayerId` set while
`buzzLocked` is true — the same player can submit again before the
advance timer fires, and a second correct submission succeeds and adds
the same points a second time. -/
theorem C10_theorem (s : ServerState) (sid code : String) (party : Party)
    (gs : GameState) (player : Player)
    (h1 : alGet s.playerToParty sid = some code)
    (h2 : alGet s.parties code = some party)
    (h3 : party.gameState = some gs)
    (h4 : gs.buzzedPlayerId = some sid)
    (h5 : findPlayer party.players sid = some player) :
    (submitAnswer s sid true).reply = Reply.ok ∧
    (∃ party1 gs1, alGet (submitAnswer s sid true).st.parties code = some party1 ∧
      party1.gameState = some gs1 ∧
      gs1.buzzedPlayerId = some sid ∧ gs1.buzzLocked = true) ∧
    (submitAnswer (submitAnswer s sid true).st sid true).reply = Reply.ok ∧
    (∃ party2, alGet (submitAnswer (submitAnswer s sid true).st sid true).st.parties code
        = some party2 ∧
      findPlayer party2.players sid = some { player with
        score := player.score + computedPointsFor true party gs
          + computedPointsFor true party gs }) := by
  rw [submitAnswer_correct s sid code party gs player h1 h2 h3 h4 h5]
  have h5' : findPlayer (updateFirst party.players sid
      (fun p => { p with score := p.score + computedPointsFor true party gs })) sid
      = some { player with score := player.score + computedPointsFor true party gs } := by
    rw [findPlayer_updateScore, h5]
    rfl
  rw [submitAnswer_correct
    (updParty { s with
        armedTimers := s.armedTimers ++ [(s.nextTimerId, ⟨.advance code, 5000⟩)],
        nextTimerId := s.nextTimerId + 1 } code
      { party with
        players := updateFirst party.players sid
          (fun p => { p with score := p.score + computedPointsFor true party gs }),
        gameState := some { gs with buzzLocked := true },
        pendingAdvanceTimeout := some s.nextTimerId })
    sid code
    { party with
      players := updateFirst party.players sid
        (fun p => { p with score := p.score + computedPointsFor true party gs }),
      gameState := some { gs with buzzLocked := true },
      pendingAdvanceTimeout := some s.nextTimerId }
    { gs with buzzLocked := true }
    { player with score := player.score + computedPointsFor true party gs }
    h1 (alGet_set_eq _ _ _) rfl h4 h5']
  refine ⟨rfl, ⟨_, _, alGet_set_eq _ _ _, rfl, h4, rfl⟩, rfl, ⟨_, alGet_set_eq _ _ _, ?_⟩⟩
  rw [findPlayer_updateScore, h5']
  rfl

/-- C10 witness: Alice submits a correct answer twice in a row off one
buzz; both calls succeed and her score is credited twice. -/
theorem C10_witness :
    (submitAnswer trBuzz.st "s1" true).reply = Reply.ok ∧
    (∃ party1 gs1, alGet (submitAnswer trBuzz.st "s1" true).st.parties "1234" = some party1 ∧
      party1.gameState = some gs1 ∧
      gs1.buzzedPlayerId = some "s1" ∧ gs1.buzzLocked = true) ∧
    (submitAnswer (submitAnswer trBuzz.st "s1" true).st "s1" true).reply = Reply.ok ∧
    (∃ party2, alGet (submitAnswer (submitAnswer trBuzz.st "s1" true).st "s1" true).st.parties
        "1234" = some party2 ∧
      findPlayer party2.players "s1" = some ⟨"s1", "Alice",
        0 + computedPointsFor true trBuzzParty trBuzzGs
          + computedPointsFor true trBuzzParty trBuzzGs,
        true, "s1"⟩) :=
  C10_theorem trBuzz.st "s1" "1234" trBuzzParty trBuzzGs ⟨"s1", "Alice", 0, true, "s1"⟩
    (by decide) (by decide) (by decide) (by decide) (by decide)
